import Mathlib

/-!
Verification of the stack-convergence polling and reporting logic of the
`cftcli` command-line utilities (files `cftcli/deploy.py` and `cftcli/cli.py`).

The Python source is shallowly embedded: every function below mirrors one
Python function, with the external cloud API calls turned into explicit
parameters (the list of stack records returned by `describe_stacks`, the list
of resource records returned by `describe_stack_resources`, the sequence of
statuses produced by successive fetches) and exceptions turned into
`Except`/`ApiResult` values.
-/

set_option autoImplicit false

/-- Python `sub == hay[:len(sub)]`: `sub` occurs at the start of `hay`. -/
def startsWithList : List Char → List Char → Bool
  | _, [] => true
  | [], _ :: _ => false
  | a :: as, b :: bs => a == b && startsWithList as bs

/-- Python substring membership `sub in hay` on the underlying character
lists: `sub` occurs contiguously somewhere in `hay`. -/
def hasSubList : List Char → List Char → Bool
  | hay, sub =>
    if startsWithList hay sub then true
    else
      match hay with
      | [] => false
      | _ :: rest => hasSubList rest sub

/-- Python `sub in hay` for strings (case-sensitive contiguous substring). -/
def strContains (hay sub : String) : Bool :=
  hasSubList hay.data sub.data

/-- Python `s.lower()` (the statuses involved are ASCII, where Lean's
`Char.toLower` agrees with Python). -/
def strLower (s : String) : String :=
  String.mk (s.data.map Char.toLower)

/-- Python `s.upper()` (the statuses involved are ASCII, where Lean's
`Char.toUpper` agrees with Python). -/
def strUpper (s : String) : String :=
  String.mk (s.data.map Char.toUpper)

/-- One record of the `Stacks` list returned by `describe_stacks`; only the
fields read by `cftcli/deploy.py` are modelled.  `CreationTime` is modelled
as a natural number (timestamps compare linearly). -/
structure StackRec where
  creationTime : Nat
  stackStatus : String
deriving DecidableEq, Repr

/-- One record of the `StackResources` list returned by
`describe_stack_resources`; only the fields read by `cftcli/deploy.py` are
modelled. -/
structure StackResource where
  logicalResourceId : String
  resourceStatus : String
  resourceStatusReason : String
deriving DecidableEq, Repr

/-- The `{name, status, reason}` dict built by `get_failed_resources`
(`cftcli/deploy.py` lines 238-244). -/
structure FailedResource where
  name : String
  status : String
  reason : String
deriving DecidableEq, Repr

/-- Outcome of one remote API call: the Python call either returns a value or
raises an exception carrying the message `str(err_msg)`. -/
inductive ApiResult (α : Type) where
  | ok (val : α)
  | exn (msg : String)
deriving DecidableEq, Repr

/-- The transitional test of the polling loop, `'IN_PROGRESS' not in state`
negated (`cftcli/deploy.py` line 267).  Note the match is case-sensitive. -/
def isTransitional (state : String) : Bool :=
  strContains state "IN_PROGRESS"

/-- The failure test `any(x in state for x in bad_states)` with
`bad_states = ['ROLLBACK', 'FAILED']` (`cftcli/deploy.py` lines 280-281).
Case-sensitive substring membership. -/
def isBadState (state : String) : Bool :=
  strContains state "ROLLBACK" || strContains state "FAILED"

/-- Body of the loop of `find_current_stack` (`cftcli/deploy.py` lines
172-176): adopt the first stack unconditionally, afterwards replace the
current choice only when the candidate's `CreationTime` is strictly
greater. -/
def find_current_step (current : Option StackRec) (stack : StackRec) : Option StackRec :=
  match current with
  | none => some stack
  | some c => if stack.creationTime > c.creationTime then some stack else current

/-- `find_current_stack` (`cftcli/deploy.py` lines 162-177): fold over the
stack list keeping the record with the strictly greatest `CreationTime`; the
Python empty dict `{}` (returned for an empty list, and falsy in the
`if not current` test) is modelled as `none`. -/
def find_current_stack (stackList : List StackRec) : Option StackRec :=
  stackList.foldl find_current_step none

/-- Lexicographic comparison of character lists by code point, the order
Python uses to compare strings: shorter-and-equal-so-far sorts first, and at
the first differing position the smaller code point sorts first. -/
def lexLeList : List Char → List Char → Bool
  | [], _ => true
  | _ :: _, [] => false
  | a :: as, b :: bs =>
    if a.toNat = b.toNat then lexLeList as bs else decide (a.toNat < b.toNat)

/-- Python string `<=`: lexicographic by code point. -/
def strLe (a b : String) : Bool :=
  lexLeList a.data b.data

/-- Insert a string into a list sorted by `strLe`, keeping it sorted. -/
def insertSorted (x : String) : List String → List String
  | [] => [x]
  | y :: ys => if strLe x y then x :: y :: ys else y :: insertSorted x ys

/-- Python `sorted` for lists of strings (ascending lexicographic by code
point; the order is total and antisymmetric, so any correct sort produces
this list), as an insertion sort. -/
def sortStrings : List String → List String
  | [] => []
  | x :: xs => insertSorted x (sortStrings xs)

/-- `get_inprogress_resources` (`cftcli/deploy.py` lines 205-220): collect the
`LogicalResourceId` of every resource whose `ResourceStatus` contains
`'IN_PROGRESS'.lower()` case-insensitively (both sides lowered), then return
the list sorted (Python `sorted`, ascending lexicographic). -/
def get_inprogress_resources (resources : List StackResource) : List String :=
  sortStrings
    (resources.filterMap fun record =>
      if strContains (strLower record.resourceStatus) (strLower "IN_PROGRESS") then
        some record.logicalResourceId
      else none)

/-- `get_failed_resources` (`cftcli/deploy.py` lines 223-245): keep, in listing
order, every resource whose `ResourceStatus` upper-cased contains `'FAILED'`,
as a `{name, status, reason}` record. -/
def get_failed_resources : List StackResource → List FailedResource
  | [] => []
  | record :: rest =>
    if strContains (strUpper record.resourceStatus) "FAILED" then
      { name := record.logicalResourceId
        status := record.resourceStatus
        reason := record.resourceStatusReason } :: get_failed_resources rest
    else
      get_failed_resources rest

/-- The message of the exception raised by `describe_stacks` for a missing
stack, as tested by `get_stack_state` (`cftcli/deploy.py` line 200):
`f'Stack with id {stackname} does not exist'`. -/
def errNotExist (stackname : String) : String :=
  "Stack with id " ++ stackname ++ " does not exist"

/-- Message of the `KeyError` raised by `stack['StackStatus']` when
`find_current_stack` returns the empty dict (Python renders it with quotes
around the key; only the fact that it does not contain the does-not-exist
phrase matters below). -/
def keyErrorStackStatus : String :=
  "KeyError: StackStatus"

/-- `get_stack_state` (`cftcli/deploy.py` lines 180-202).  The two remote
calls made inside the `try` block are passed in as `ApiResult`s:
`describeStacks` for `CLOUDFORMATION.describe_stacks` and `describeResources`
for the `describe_stack_resources` call performed by
`get_inprogress_resources`.  Any exception whose message contains
`errNotExist stackname` yields `'DELETE_COMPLETE'`; any other exception is
re-raised (`Except.error`). -/
def get_stack_state (stackname : String)
    (describeStacks : ApiResult (List StackRec))
    (describeResources : ApiResult (List StackResource)) : Except String String :=
  match describeStacks with
  | ApiResult.exn msg =>
    if strContains msg (errNotExist stackname) then Except.ok "DELETE_COMPLETE"
    else Except.error msg
  | ApiResult.ok stackList =>
    match find_current_stack stackList with
    | none =>
      if strContains keyErrorStackStatus (errNotExist stackname) then
        Except.ok "DELETE_COMPLETE"
      else Except.error keyErrorStackStatus
    | some stack =>
      match describeResources with
      | ApiResult.exn msg =>
        if strContains msg (errNotExist stackname) then Except.ok "DELETE_COMPLETE"
        else Except.error msg
      | ApiResult.ok resources =>
        match get_inprogress_resources resources with
        | [] => Except.ok stack.stackStatus
        | r :: rs =>
          Except.ok (stack.stackStatus ++ " - " ++ String.intercalate ", " (r :: rs))

/-- The fixed delay passed to `time.sleep` between polls
(`cftcli/deploy.py` line 25). -/
def TIME_DELAY : Nat := 3

/-- The inner loop of `wait_for_stack` (`cftcli/deploy.py` lines 275-277):
`while prev_state == state: time.sleep(TIME_DELAY); state = get_stack_state(...)`.
`fetches` is the stream of statuses the successive fetches will produce;
the result is the first fetched status differing from `prev`, the remaining
stream, and the updated count of sleeps; `none` when the modelled stream is
exhausted while the loop is still running. -/
def innerWait : String → List String → Nat → Option (String × List String × Nat)
  | _, [], _ => none
  | prev, s :: more, sleeps =>
    if s == prev then innerWait prev more (sleeps + 1)
    else some (s, more, sleeps + 1)

theorem innerWait_length {prev s : String} {f rest : List String} {n m : Nat}
    (h : innerWait prev f n = some (s, rest, m)) : rest.length < f.length := by
  induction f generalizing n with
  | nil => simp [innerWait] at h
  | cons x xs ih =>
    simp only [innerWait] at h
    by_cases hx : (x == prev) = true
    · simp only [hx, if_pos rfl] at h
      exact Nat.lt_trans (ih h) (Nat.lt_succ_self _)
    · simp only [hx] at h
      rcases h with ⟨rfl, rfl, rfl⟩
      exact Nat.lt_succ_self _

/-- The outer loop of `wait_for_stack` (`cftcli/deploy.py` lines 266-278):
`while True: if 'IN_PROGRESS' not in state: break; ...inner loop...`.
Returns the first non-transitional state together with the total number of
`time.sleep(TIME_DELAY)` calls performed, or `none` when the modelled fetch
stream runs out while the state is still transitional. -/
def outerWait (state : String) (fetches : List String) (sleeps : Nat) :
    Option (String × Nat) :=
  if isTransitional state then
    match h : innerWait state fetches sleeps with
    | none => none
    | some (s, rest, n) => outerWait s rest n
  else some (state, sleeps)
termination_by fetches.length
decreasing_by exact innerWait_length h

/-- Flattened form of the polling loop used in proofs: check the transitional
test on every fetched status in turn.  `outerWait` only re-checks the test
when the status string changes, but a status equal to the previous one yields
the same test result, so the two agree (`outerWait_eq_pollFlat`). -/
def pollFlat : String → List String → Nat → Option (String × Nat)
  | state, fetches, sleeps =>
    if isTransitional state then
      match fetches with
      | [] => none
      | s :: more => pollFlat s more (sleeps + 1)
    else some (state, sleeps)

/-- `termcolor.colored(s, 'red')`. -/
def coloredRed (s : String) : String :=
  "\x1b[31m" ++ s ++ "\x1b[0m"

/-- `termcolor.colored(s, 'green')`. -/
def coloredGreen (s : String) : String :=
  "\x1b[32m" ++ s ++ "\x1b[0m"

/-- One item printed by `wait_for_stack` after the polling loop ends: the
failed-resources table rendered by `cftcli.common.display_table`, or a plain
printed line. -/
inductive OutputItem where
  | table (rows : List FailedResource)
  | line (text : String)
deriving DecidableEq, Repr

/-- `wait_for_stack` (`cftcli/deploy.py` lines 258-288).  `firstState` is the
status returned by the initial `get_stack_state` call (line 265),
`laterFetches` the stream of statuses returned by the fetches inside the
loop, and `resources` the `describe_stack_resources` listing consulted by
`get_failed_resources` on failure.  The result is the list of things printed
and the number of sleeps, or `none` when the modelled stream is exhausted
while the stack is still transitional (the real loop would keep polling). -/
def wait_for_stack (stackname firstState : String) (laterFetches : List String)
    (resources : List StackResource) : Option (List OutputItem × Nat) :=
  match outerWait firstState laterFetches 0 with
  | none => none
  | some (state, sleeps) =>
    if isBadState state then
      some ([OutputItem.table (get_failed_resources resources),
             OutputItem.line (stackname ++ " is " ++ coloredRed state)], sleeps)
    else
      some ([OutputItem.line (stackname ++ " is " ++ coloredGreen state)], sleeps)

/-- Exit behaviour of the deploy command (`cftcli/deploy.py` lines 361-416,
wired up as the `cfdeploy`/`deploy-stack` console script): `_main` calls
`wait_for_stack` and then `CACHE.close()` and falls off the end, returning
`None`; the module contains no `sys.exit` call, so when no exception is
raised the process exit status is 0 regardless of the terminal stack
status. -/
def deploy_cli_exit_code : Nat := 0

/-- The `apply` dict built by `apply_config` (`cftcli/cli.py` lines 112-117),
in Python dict insertion order: the three secret fields of the STS token
followed by the region. -/
def apply_items (accessKeyId secretAccessKey sessionToken region : String) :
    List (String × String) :=
  [("aws_access_key_id", accessKeyId),
   ("aws_secret_access_key", secretAccessKey),
   ("aws_session_token", sessionToken),
   ("region", region)]

/-- The keys routed to the config file, `config_keys = ['region']`
(`cftcli/cli.py` line 131); all other keys go to the credentials file. -/
def config_keys : List String := ["region"]

/-- The routing loop of `apply_config` (`cftcli/cli.py` lines 132-140):
each `(key, value)` of the `apply` dict is `set` into the profile's section
of the config file when the key is in `config_keys`, otherwise into the
profile's section of the credentials file; the result is the pair
(config-section contents, credentials-section contents) in insertion
order. -/
def routeItems : List (String × String) → List (String × String) × List (String × String)
  | [] => ([], [])
  | (key, value) :: rest =>
    let routed := routeItems rest
    if config_keys.contains key then ((key, value) :: routed.1, routed.2)
    else (routed.1, (key, value) :: routed.2)

/-- An INI file as `configparser` sees it: a list of named sections, each a
list of key/value pairs. -/
abbrev IniFile : Type := List (String × List (String × String))

/-- Section removal performed by `_load_config` (`cftcli/cli.py` lines
96-97): drop the section named `profile` from the loaded file. -/
def removeSection (ini : IniFile) (profile : String) : IniFile :=
  ini.filter fun sec => sec.1 != profile

/-- `apply_config` (`cftcli/cli.py` lines 102-148), as a pure function of the
token fields, the region, the profile name and the two files as loaded from
disk: both files get the profile's old section removed (`_load_config`), a
fresh section named `profile` appended (`add_section`), and the `apply`
items routed into the two sections by `config_keys`; the result is the pair
(config file written, credentials file written). -/
def apply_config (accessKeyId secretAccessKey sessionToken region profile : String)
    (credentials0 config0 : IniFile) : IniFile × IniFile :=
  let routed := routeItems (apply_items accessKeyId secretAccessKey sessionToken region)
  (removeSection config0 profile ++ [(profile, routed.1)],
   removeSection credentials0 profile ++ [(profile, routed.2)])

/-! Helper lemmas about the polling loop. -/

theorem pollFlat_of_not_transitional {state : String} {fetches : List String} {sleeps : Nat}
    (h : isTransitional state = false) :
    pollFlat state fetches sleeps = some (state, sleeps) := by
  cases fetches <;> simp [pollFlat, h]

theorem pollFlat_cons_of_transitional {state x : String} {more : List String} {sleeps : Nat}
    (h : isTransitional state = true) :
    pollFlat state (x :: more) sleeps = pollFlat x more (sleeps + 1) := by
  simp [pollFlat, h]

theorem innerWait_pollFlat {prev : String} (ht : isTransitional prev = true) :
    ∀ (fetches : List String) (sleeps : Nat),
      pollFlat prev fetches sleeps =
        match innerWait prev fetches sleeps with
        | none => none
        | some (s, rest, n) => pollFlat s rest n := by
  intro fetches
  induction fetches with
  | nil =>
    intro sleeps
    simp [pollFlat, innerWait, ht]
  | cons x more ih =>
    intro sleeps
    by_cases hx : (x == prev) = true
    · have hxe : x = prev := eq_of_beq hx
      subst hxe
      have hiw : innerWait x (x :: more) sleeps = innerWait x more (sleeps + 1) := by
        simp [innerWait]
      rw [hiw, pollFlat_cons_of_transitional ht]
      exact ih (sleeps + 1)
    · have hiw : innerWait prev (x :: more) sleeps = some (x, more, sleeps + 1) := by
        simp [innerWait, hx]
      rw [hiw, pollFlat_cons_of_transitional ht]

theorem outerWait_eq_pollFlat_aux :
    ∀ (L : Nat) (fetches : List String), fetches.length ≤ L →
      ∀ (state : String) (sleeps : Nat),
        outerWait state fetches sleeps = pollFlat state fetches sleeps := by
  intro L
  induction L with
  | zero =>
    intro fetches hf state sleeps
    have hnil : fetches = [] := List.eq_nil_of_length_eq_zero (Nat.le_zero.mp hf)
    subst hnil
    rw [outerWait.eq_def]
    by_cases ht : isTransitional state
    · simp [ht, innerWait, pollFlat]
    · simp at ht
      simp [ht, pollFlat]
  | succ L ih =>
    intro fetches hf state sleeps
    by_cases ht : isTransitional state
    · rw [outerWait.eq_def, if_pos ht, innerWait_pollFlat ht]
      split
      · rename_i heq
        rw [heq]
      · rename_i s rest n heq
        rw [heq]
        exact ih rest (by have hlen := innerWait_length heq; omega) s n
    · simp at ht
      rw [outerWait.eq_def, if_neg (by simp [ht]), pollFlat_of_not_transitional ht]

theorem outerWait_eq_pollFlat (state : String) (fetches : List String) (sleeps : Nat) :
    outerWait state fetches sleeps = pollFlat state fetches sleeps :=
  outerWait_eq_pollFlat_aux fetches.length fetches (Nat.le_refl _) state sleeps

theorem pollFlat_first_nontransitional :
    ∀ (fetches : List String) (state : String) (sleeps : Nat) (s : String) (n : Nat),
      pollFlat state fetches sleeps = some (s, n) →
      isTransitional s = false ∧
      ∃ k, n = sleeps + k ∧ (state :: fetches)[k]? = some s ∧
        ∀ j, j < k → ∀ t, (state :: fetches)[j]? = some t → isTransitional t = true := by
  intro fetches
  induction fetches with
  | nil =>
    intro state sleeps s n h
    by_cases ht : isTransitional state
    · simp [pollFlat, ht] at h
    · simp at ht
      rw [pollFlat_of_not_transitional ht] at h
      simp at h
      obtain ⟨rfl, rfl⟩ := h
      exact ⟨ht, 0, by omega, rfl, fun j hj => by omega⟩
  | cons x more ih =>
    intro state sleeps s n h
    by_cases ht : isTransitional state
    · rw [pollFlat_cons_of_transitional ht] at h
      obtain ⟨hs, k, hn, hget, hall⟩ := ih x (sleeps + 1) s n h
      refine ⟨hs, k + 1, by omega, by simpa using hget, ?_⟩
      intro j hj t hgt
      cases j with
      | zero =>
        simp at hgt
        rw [← hgt]
        exact ht
      | succ j =>
        exact hall j (by omega) t (by simpa using hgt)
    · simp at ht
      rw [pollFlat_of_not_transitional ht] at h
      simp at h
      obtain ⟨rfl, rfl⟩ := h
      exact ⟨ht, 0, by omega, rfl, fun j hj => by omega⟩

theorem wait_for_stack_flat (stackname firstState : String) (laterFetches : List String)
    (resources : List StackResource) :
    wait_for_stack stackname firstState laterFetches resources =
      match pollFlat firstState laterFetches 0 with
      | none => none
      | some (state, sleeps) =>
        if isBadState state then
          some ([OutputItem.table (get_failed_resources resources),
                 OutputItem.line (stackname ++ " is " ++ coloredRed state)], sleeps)
        else
          some ([OutputItem.line (stackname ++ " is " ++ coloredGreen state)], sleeps) := by
  unfold wait_for_stack
  rw [outerWait_eq_pollFlat]

/-- C1: for every terminal status string (one the loop test does not classify
transitional), `wait_for_stack` classifies it as a failure iff it contains
`ROLLBACK` or `FAILED` as a case-sensitive substring; on failure it prints the
failed-sub-component table followed by the final line `<stackname> is <status>`
colored red, and on every other terminal status it prints only that final line
colored green, in both cases with zero sleeps. -/
theorem wait_for_stack_terminal_classification
    (stackname state : String) (laterFetches : List String) (resources : List StackResource)
    (h : isTransitional state = false) :
    ((strContains state "ROLLBACK" = true ∨ strContains state "FAILED" = true) →
      wait_for_stack stackname state laterFetches resources =
        some ([OutputItem.table (get_failed_resources resources),
               OutputItem.line (stackname ++ " is " ++ coloredRed state)], 0)) ∧
    (strContains state "ROLLBACK" = false → strContains state "FAILED" = false →
      wait_for_stack stackname state laterFetches resources =
        some ([OutputItem.line (stackname ++ " is " ++ coloredGreen state)], 0)) := by
  rw [wait_for_stack_flat, pollFlat_of_not_transitional h]
  constructor
  · intro hb
    have hbad : isBadState state = true := by
      unfold isBadState
      rcases hb with hb | hb <;> simp [hb]
    simp [hbad]
  · intro h1 h2
    have hbad : isBadState state = false := by
      unfold isBadState
      simp [h1, h2]
    simp [hbad]

theorem wait_for_stack_terminal_classification_witness :
    isTransitional "UPDATE_ROLLBACK_COMPLETE" = false ∧
    wait_for_stack "demo" "UPDATE_ROLLBACK_COMPLETE" [] [] =
      some ([OutputItem.table [],
             OutputItem.line ("demo is " ++ coloredRed "UPDATE_ROLLBACK_COMPLETE")], 0) :=
  ⟨by decide,
   (wait_for_stack_terminal_classification "demo" "UPDATE_ROLLBACK_COMPLETE" [] [] (by decide)).1
     (Or.inl (by decide))⟩

/-- C2 counterexample: the transitional test of the polling loop is
case-sensitive, so the status `create_in_progress`, which contains an
in-progress marker matched case-insensitively, is not classified Transitional:
the poller returns it at once instead of sleeping and fetching again. -/
theorem transitional_not_case_insensitive :
    strContains (strLower "create_in_progress") (strLower "IN_PROGRESS") = true ∧
    isTransitional "create_in_progress" = false ∧
    outerWait "create_in_progress" ["CREATE_COMPLETE"] 0 = some ("create_in_progress", 0) := by
  refine ⟨by decide, by decide, ?_⟩
  rw [outerWait_eq_pollFlat]
  decide

/-- C2 (amended): for every status string containing `IN_PROGRESS` as a
case-sensitive substring, classification is Transitional and the poller sleeps
and fetches again instead of returning (even when the string also contains
`ROLLBACK` or `FAILED`): whenever the loop returns a status, that status is not
Transitional, it is the first fetched status that is not Transitional, every
earlier fetched status was Transitional, and one sleep preceded each re-fetch
before it. -/
theorem outerWait_first_nontransitional
    (state : String) (fetches : List String) (sleeps : Nat) (s : String) (n : Nat)
    (h : outerWait state fetches sleeps = some (s, n)) :
    isTransitional s = false ∧
    ∃ k, n = sleeps + k ∧ (state :: fetches)[k]? = some s ∧
      ∀ j, j < k → ∀ t, (state :: fetches)[j]? = some t → isTransitional t = true := by
  rw [outerWait_eq_pollFlat] at h
  exact pollFlat_first_nontransitional fetches state sleeps s n h

theorem outerWait_first_nontransitional_witness :
    isTransitional "UPDATE_ROLLBACK_FAILED" = false ∧
    ∃ k, 1 = 0 + k ∧
      ("UPDATE_ROLLBACK_IN_PROGRESS" :: ["UPDATE_ROLLBACK_FAILED"])[k]? =
        some "UPDATE_ROLLBACK_FAILED" ∧
      ∀ j, j < k →
        ∀ t, ("UPDATE_ROLLBACK_IN_PROGRESS" :: ["UPDATE_ROLLBACK_FAILED"])[j]? = some t →
          isTransitional t = true :=
  outerWait_first_nontransitional "UPDATE_ROLLBACK_IN_PROGRESS" ["UPDATE_ROLLBACK_FAILED"] 0
    "UPDATE_ROLLBACK_FAILED" 1 (by rw [outerWait_eq_pollFlat]; decide)

/-- C6: given fetch results `[A, A, B]` with `A` Transitional and `B`
Terminal (the first `A` being the initial fetch), the poller returns `B`
after exactly two sleeps of the fixed interval, one before each re-fetch. -/
theorem poll_sequence_two_delays (A B : String)
    (hA : isTransitional A = true) (hB : isTransitional B = false) :
    outerWait A [A, B] 0 = some (B, 2) := by
  rw [outerWait_eq_pollFlat, pollFlat_cons_of_transitional hA,
    pollFlat_cons_of_transitional hA, pollFlat_of_not_transitional hB]

theorem poll_sequence_two_delays_witness :
    outerWait "CREATE_IN_PROGRESS" ["CREATE_IN_PROGRESS", "CREATE_COMPLETE"] 0 =
      some ("CREATE_COMPLETE", 2) :=
  poll_sequence_two_delays "CREATE_IN_PROGRESS" "CREATE_COMPLETE" (by decide) (by decide)

theorem foldl_find_current_step_some :
    ∀ (l : List StackRec) (c : StackRec), ∃ r, l.foldl find_current_step (some c) = some r := by
  intro l
  induction l with
  | nil => intro c; exact ⟨c, rfl⟩
  | cons x xs ih =>
    intro c
    have hstep : find_current_step (some c) x =
        some (if x.creationTime > c.creationTime then x else c) := by
      unfold find_current_step
      by_cases hx : x.creationTime > c.creationTime <;> simp [hx]
    rw [List.foldl_cons, hstep]
    exact ih _

theorem find_current_stack_some_of_ne_nil {l : List StackRec} (h : l ≠ []) :
    ∃ r, find_current_stack l = some r := by
  cases l with
  | nil => exact absurd rfl h
  | cons x xs =>
    unfold find_current_stack
    rw [List.foldl_cons]
    exact foldl_find_current_step_some xs x

/-- C3: when the status fetch raises because the stack does not exist (the
message contains the does-not-exist phrase), `get_stack_state` returns the
terminal `DELETE_COMPLETE` status and the polling loop accepts it with zero
sleeps; and (given well-formed non-empty `describe_stacks` responses)
`get_stack_state` raises if and only if one of the two fetches raised for a
reason other than the stack not existing. -/
theorem get_stack_state_error_iff (stackname : String)
    (ds : ApiResult (List StackRec)) (dr : ApiResult (List StackResource))
    (hwf : ∀ sl, ds = ApiResult.ok sl → sl ≠ []) :
    (∀ m, ds = ApiResult.exn m → strContains m (errNotExist stackname) = true →
      get_stack_state stackname ds dr = Except.ok "DELETE_COMPLETE" ∧
      ∀ fetches, outerWait "DELETE_COMPLETE" fetches 0 = some ("DELETE_COMPLETE", 0)) ∧
    ((∃ m, get_stack_state stackname ds dr = Except.error m) ↔
      (∃ m, ds = ApiResult.exn m ∧ strContains m (errNotExist stackname) = false) ∨
      ((∃ sl, ds = ApiResult.ok sl) ∧
        ∃ m, dr = ApiResult.exn m ∧ strContains m (errNotExist stackname) = false)) := by
  constructor
  · intro m hds hm
    subst hds
    refine ⟨by simp [get_stack_state, hm], ?_⟩
    intro fetches
    rw [outerWait_eq_pollFlat]
    exact pollFlat_of_not_transitional (by decide)
  · cases ds with
    | exn m =>
      by_cases hm : strContains m (errNotExist stackname) = true
      · have hval : get_stack_state stackname (ApiResult.exn m) dr =
            Except.ok "DELETE_COMPLETE" := by simp [get_stack_state, hm]
        constructor
        · rintro ⟨m2, hm2⟩
          rw [hval] at hm2
          cases hm2
        · rintro (⟨m2, hmeq, hf⟩ | ⟨⟨sl, hsl⟩, _⟩)
          · injection hmeq with h12
            subst h12
            rw [hm] at hf
            cases hf
          · cases hsl
      · have hm' : strContains m (errNotExist stackname) = false := by
          simpa using hm
        have hval : get_stack_state stackname (ApiResult.exn m) dr = Except.error m := by
          simp [get_stack_state, hm']
        constructor
        · intro _
          exact Or.inl ⟨m, rfl, hm'⟩
        · intro _
          exact ⟨m, hval⟩
    | ok sl =>
      have hne : sl ≠ [] := hwf sl rfl
      obtain ⟨stack, hst⟩ := find_current_stack_some_of_ne_nil hne
      cases dr with
      | exn m =>
        by_cases hm : strContains m (errNotExist stackname) = true
        · have hval : get_stack_state stackname (ApiResult.ok sl) (ApiResult.exn m) =
              Except.ok "DELETE_COMPLETE" := by
            simp [get_stack_state, hst, hm]
          constructor
          · rintro ⟨m2, hm2⟩
            rw [hval] at hm2
            cases hm2
          · rintro (⟨m2, hmeq, _⟩ | ⟨_, m2, hmeq, hf⟩)
            · cases hmeq
            · injection hmeq with h12
              subst h12
              rw [hm] at hf
              cases hf
        · have hm' : strContains m (errNotExist stackname) = false := by
            simpa using hm
          have hval : get_stack_state stackname (ApiResult.ok sl) (ApiResult.exn m) =
              Except.error m := by
            simp [get_stack_state, hst, hm']
          constructor
          · intro _
            exact Or.inr ⟨⟨sl, rfl⟩, m, rfl, hm'⟩
          · intro _
            exact ⟨m, hval⟩
      | ok resources =>
        have hok : ∃ v, get_stack_state stackname (ApiResult.ok sl) (ApiResult.ok resources) =
            Except.ok v := by
          simp only [get_stack_state]
          rw [hst]
          cases hres : get_inprogress_resources resources with
          | nil => exact ⟨_, rfl⟩
          | cons r rs => exact ⟨_, rfl⟩
        obtain ⟨v, hv⟩ := hok
        constructor
        · rintro ⟨m2, hm2⟩
          rw [hv] at hm2
          cases hm2
        · rintro (⟨m2, hmeq, _⟩ | ⟨_, m2, hmeq, _⟩) <;> cases hmeq

theorem get_stack_state_error_iff_witness :
    get_stack_state "demo" (ApiResult.exn (errNotExist "demo")) (ApiResult.ok []) =
      Except.ok "DELETE_COMPLETE" ∧
    outerWait "DELETE_COMPLETE" [] 0 = some ("DELETE_COMPLETE", 0) := by
  have h := (get_stack_state_error_iff "demo" (ApiResult.exn (errNotExist "demo"))
      (ApiResult.ok []) (fun sl hsl => nomatch hsl)).1 (errNotExist "demo") rfl (by decide)
  exact ⟨h.1, h.2 []⟩

/-- C4 evaluation: a run reaching the failure terminal status
`UPDATE_ROLLBACK_COMPLETE` with one failed sub-component prints the failure
table and then the red final line, yet the deploy CLI process still exits
with status 0: `_main` returns `None` after `wait_for_stack` and the module
never calls `sys.exit`, contradicting the specified non-zero exit. -/
theorem deploy_failure_prints_red_but_exits_zero :
    wait_for_stack "demo" "UPDATE_ROLLBACK_COMPLETE" []
        [{ logicalResourceId := "Bucket", resourceStatus := "CREATE_FAILED",
           resourceStatusReason := "r1" }] =
      some ([OutputItem.table [{ name := "Bucket", status := "CREATE_FAILED", reason := "r1" }],
             OutputItem.line ("demo is " ++ coloredRed "UPDATE_ROLLBACK_COMPLETE")], 0) ∧
    deploy_cli_exit_code = 0 := by
  refine ⟨?_, rfl⟩
  rw [wait_for_stack_flat]
  decide

/-- C5: the failure reporter returns exactly those listing entries whose
status contains `FAILED` case-insensitively (the source upper-cases the
status before the case-sensitive membership test), each as a
`{name, status, reason}` record, in listing order; in particular it maps the
spec's sample listing to exactly the one failed entry, and also catches a
lower-case failed status. -/
theorem get_failed_resources_spec :
    (∀ resources : List StackResource,
      get_failed_resources resources =
        (resources.filter fun r => strContains (strUpper r.resourceStatus) "FAILED").map
          fun r => { name := r.logicalResourceId, status := r.resourceStatus,
                     reason := r.resourceStatusReason }) ∧
    get_failed_resources
        [{ logicalResourceId := "X", resourceStatus := "CREATE_FAILED",
           resourceStatusReason := "r1" },
         { logicalResourceId := "Y", resourceStatus := "CREATE_COMPLETE",
           resourceStatusReason := "" }] =
      [{ name := "X", status := "CREATE_FAILED", reason := "r1" }] ∧
    get_failed_resources
        [{ logicalResourceId := "Z", resourceStatus := "create_failed",
           resourceStatusReason := "r2" }] =
      [{ name := "Z", status := "create_failed", reason := "r2" }] := by
  refine ⟨?_, by decide, by decide⟩
  intro resources
  induction resources with
  | nil => rfl
  | cons r rest ih =>
    by_cases hr : strContains (strUpper r.resourceStatus) "FAILED" = true
    · simp [get_failed_resources, List.filter_cons, hr, ih]
    · have hr' : strContains (strUpper r.resourceStatus) "FAILED" = false := by
        simpa using hr
      simp [get_failed_resources, List.filter_cons, hr', ih]

/-- Section lookup in the INI model: the contents of the first section named
`profile`, mirroring `configparser` access by section name. -/
def lookupSection : IniFile → String → Option (List (String × String))
  | [], _ => none
  | (name, entries) :: rest, profile =>
    if name = profile then some entries else lookupSection rest profile

theorem lookupSection_removeSection_append (profile : String) (v : List (String × String)) :
    ∀ ini : IniFile, lookupSection (removeSection ini profile ++ [(profile, v)]) profile = some v := by
  intro ini
  induction ini with
  | nil => simp [removeSection, lookupSection]
  | cons sec rest ih =>
    obtain ⟨k, w⟩ := sec
    by_cases hs : k = profile
    · subst hs
      have hrm : removeSection ((k, w) :: rest) k = removeSection rest k := by
        simp [removeSection, List.filter_cons]
      rw [hrm]
      exact ih
    · have hrm : removeSection ((k, w) :: rest) profile =
          (k, w) :: removeSection rest profile := by
        simp [removeSection, List.filter_cons, hs]
      rw [hrm, List.cons_append]
      simpa [lookupSection, hs] using ih

/-- C7: for every session token, profile and region, the credential
materializer writes the region key alone into the profile's section of the
config file, and exactly the three secret fields, in insertion order, into
the profile's section of the credentials file — no secret reaches the config
section and the region does not reach the credentials section. -/
theorem apply_config_partitions
    (accessKeyId secretAccessKey sessionToken region profile : String)
    (credentials0 config0 : IniFile) :
    lookupSection (apply_config accessKeyId secretAccessKey sessionToken region profile
        credentials0 config0).1 profile = some [("region", region)] ∧
    lookupSection (apply_config accessKeyId secretAccessKey sessionToken region profile
        credentials0 config0).2 profile =
      some [("aws_access_key_id", accessKeyId),
            ("aws_secret_access_key", secretAccessKey),
            ("aws_session_token", sessionToken)] := by
  unfold apply_config
  constructor
  · exact lookupSection_removeSection_append profile _ config0
  · exact lookupSection_removeSection_append profile _ credentials0

/-- C8: the terminal-status classification and the failure-list construction
are pure functions of the status string and the sub-component listing: two
runs on equal inputs produce identical classification outcomes and failed
`{name, status, reason}` lists. -/
theorem classification_and_failure_list_deterministic
    (s1 s2 : String) (r1 r2 : List StackResource) (hs : s1 = s2) (hr : r1 = r2) :
    (isBadState s1, get_failed_resources r1) = (isBadState s2, get_failed_resources r2) := by
  subst hs
  subst hr
  rfl

theorem classification_and_failure_list_deterministic_witness :
    "UPDATE_ROLLBACK_COMPLETE" = "UPDATE_ROLLBACK_COMPLETE" ∧
    ([{ logicalResourceId := "X", resourceStatus := "CREATE_FAILED",
        resourceStatusReason := "r1" }] : List StackResource) =
      [{ logicalResourceId := "X", resourceStatus := "CREATE_FAILED",
         resourceStatusReason := "r1" }] ∧
    (isBadState "UPDATE_ROLLBACK_COMPLETE",
     get_failed_resources
       [{ logicalResourceId := "X", resourceStatus := "CREATE_FAILED",
          resourceStatusReason := "r1" }]) =
      (isBadState "UPDATE_ROLLBACK_COMPLETE",
       get_failed_resources
         [{ logicalResourceId := "X", resourceStatus := "CREATE_FAILED",
            resourceStatusReason := "r1" }]) :=
  ⟨rfl, rfl, classification_and_failure_list_deterministic _ _ _ _ rfl rfl⟩

theorem lexLeList_trans : ∀ (as bs cs : List Char),
    lexLeList as bs = true → lexLeList bs cs = true → lexLeList as cs = true := by
  intro as
  induction as with
  | nil => intro bs cs h1 h2; rfl
  | cons a as ih =>
    intro bs cs h1 h2
    cases bs with
    | nil => simp [lexLeList] at h1
    | cons b bs =>
      cases cs with
      | nil => simp [lexLeList] at h2
      | cons c cs =>
        simp only [lexLeList] at h1 h2 ⊢
        by_cases hab : a.toNat = b.toNat
        · rw [if_pos hab] at h1
          by_cases hbc : b.toNat = c.toNat
          · rw [if_pos hbc] at h2
            rw [if_pos (hab.trans hbc)]
            exact ih bs cs h1 h2
          · rw [if_neg hbc] at h2
            have hlt : b.toNat < c.toNat := of_decide_eq_true h2
            rw [if_neg (by omega)]
            exact decide_eq_true (by omega)
        · rw [if_neg hab] at h1
          have hlt1 : a.toNat < b.toNat := of_decide_eq_true h1
          by_cases hbc : b.toNat = c.toNat
          · rw [if_neg (by omega)]
            exact decide_eq_true (by omega)
          · rw [if_neg hbc] at h2
            have hlt2 : b.toNat < c.toNat := of_decide_eq_true h2
            rw [if_neg (by omega)]
            exact decide_eq_true (by omega)

theorem lexLeList_total : ∀ (as bs : List Char),
    lexLeList as bs = true ∨ lexLeList bs as = true := by
  intro as
  induction as with
  | nil => intro bs; exact Or.inl rfl
  | cons a as ih =>
    intro bs
    cases bs with
    | nil => exact Or.inr rfl
    | cons b bs =>
      simp only [lexLeList]
      by_cases hab : a.toNat = b.toNat
      · rw [if_pos hab, if_pos hab.symm]
        exact ih bs
      · rw [if_neg hab, if_neg (fun h => hab h.symm)]
        rcases Nat.lt_or_ge a.toNat b.toNat with h | h
        · exact Or.inl (decide_eq_true h)
        · exact Or.inr (decide_eq_true (by omega))

theorem strLe_trans {a b c : String} (h1 : strLe a b = true) (h2 : strLe b c = true) :
    strLe a c = true :=
  lexLeList_trans a.data b.data c.data h1 h2

theorem strLe_total (a b : String) : strLe a b = true ∨ strLe b a = true :=
  lexLeList_total a.data b.data

theorem mem_insertSorted {x z : String} :
    ∀ {l : List String}, z ∈ insertSorted x l ↔ z = x ∨ z ∈ l := by
  intro l
  induction l with
  | nil => simp [insertSorted]
  | cons y ys ih =>
    simp only [insertSorted]
    by_cases h : strLe x y = true
    · rw [if_pos h]
      simp [List.mem_cons]
    · rw [if_neg h]
      simp only [List.mem_cons, ih]
      tauto

theorem perm_insertSorted (x : String) :
    ∀ l : List String, List.Perm (insertSorted x l) (x :: l) := by
  intro l
  induction l with
  | nil => exact List.Perm.refl _
  | cons y ys ih =>
    simp only [insertSorted]
    by_cases h : strLe x y = true
    · rw [if_pos h]
    · rw [if_neg h]
      exact (List.Perm.cons y ih).trans (List.Perm.swap x y ys)

theorem perm_sortStrings : ∀ l : List String, List.Perm (sortStrings l) l := by
  intro l
  induction l with
  | nil => exact List.Perm.refl _
  | cons x xs ih =>
    exact (perm_insertSorted x (sortStrings xs)).trans (List.Perm.cons x ih)

theorem sorted_insertSorted (x : String) :
    ∀ l : List String, l.Sorted (fun a b => strLe a b = true) →
      (insertSorted x l).Sorted (fun a b => strLe a b = true) := by
  intro l
  induction l with
  | nil =>
    intro _
    simp [insertSorted]
  | cons y ys ih =>
    intro h
    rw [List.sorted_cons] at h
    obtain ⟨hy, hys⟩ := h
    simp only [insertSorted]
    by_cases hxy : strLe x y = true
    · rw [if_pos hxy, List.sorted_cons]
      refine ⟨?_, by rw [List.sorted_cons]; exact ⟨hy, hys⟩⟩
      intro z hz
      rcases List.mem_cons.mp hz with rfl | hz'
      · exact hxy
      · exact strLe_trans hxy (hy z hz')
    · rw [if_neg hxy, List.sorted_cons]
      have hyx : strLe y x = true := (strLe_total x y).resolve_left hxy
      refine ⟨?_, ih hys⟩
      intro z hz
      rcases mem_insertSorted.mp hz with rfl | hz'
      · exact hyx
      · exact hy z hz'

theorem sorted_sortStrings : ∀ l : List String,
    (sortStrings l).Sorted (fun a b => strLe a b = true) := by
  intro l
  induction l with
  | nil => simp [sortStrings]
  | cons x xs ih => exact sorted_insertSorted x (sortStrings xs) ih

theorem foldl_find_current_step_first_max :
    ∀ (l : List StackRec) (c : StackRec),
      ∃ r l1 l2, l.foldl find_current_step (some c) = some r ∧
        c :: l = l1 ++ r :: l2 ∧
        (∀ x ∈ l1, x.creationTime < r.creationTime) ∧
        (∀ x ∈ l2, x.creationTime ≤ r.creationTime) := by
  intro l
  induction l with
  | nil =>
    intro c
    exact ⟨c, [], [], rfl, rfl, by simp, by simp⟩
  | cons x xs ih =>
    intro c
    have hstep : find_current_step (some c) x =
        some (if x.creationTime > c.creationTime then x else c) := by
      unfold find_current_step
      by_cases hx : x.creationTime > c.creationTime <;> simp [hx]
    rw [List.foldl_cons, hstep]
    by_cases hx : x.creationTime > c.creationTime
    · rw [if_pos hx]
      obtain ⟨r, l1, l2, hr, hdecomp, hlt, hle⟩ := ih x
      refine ⟨r, c :: l1, l2, hr, by rw [List.cons_append, ← hdecomp], ?_, hle⟩
      intro y hy
      rcases List.mem_cons.mp hy with rfl | hy'
      · have hxr : x.creationTime ≤ r.creationTime := by
          cases l1 with
          | nil =>
            have hxr' : x = r := by
              have hd := hdecomp
              simp at hd
              exact hd.1
            rw [hxr']
          | cons h1 t1 =>
            have hxh : x = h1 := by
              have hd := hdecomp
              simp at hd
              exact hd.1
            have hmem : h1 ∈ h1 :: t1 := List.mem_cons_self _ _
            have hl := hlt h1 hmem
            rw [← hxh] at hl
            exact le_of_lt hl
        exact lt_of_lt_of_le hx hxr
      · exact hlt y hy'
    · rw [if_neg hx]
      have hxc : x.creationTime ≤ c.creationTime := Nat.le_of_not_lt hx
      obtain ⟨r, l1, l2, hr, hdecomp, hlt, hle⟩ := ih c
      cases l1 with
      | nil =>
        have hd : c = r ∧ xs = l2 := by
          have hd' := hdecomp
          simp at hd'
          exact hd'
        obtain ⟨hcr, hxl⟩ := hd
        subst hcr
        subst hxl
        refine ⟨c, [], x :: xs, hr, by simp, by simp, ?_⟩
        intro y hy
        rcases List.mem_cons.mp hy with rfl | hy'
        · exact hxc
        · exact hle y hy'
      | cons h1 t1 =>
        have hd : c = h1 ∧ xs = t1 ++ r :: l2 := by
          have hd' := hdecomp
          simp at hd'
          exact hd'
        obtain ⟨hch, hxs⟩ := hd
        subst hch
        refine ⟨r, c :: x :: t1, l2, hr, by rw [hxs]; simp, ?_, hle⟩
        intro y hy
        have hclt : c.creationTime < r.creationTime := hlt c (List.mem_cons_self _ _)
        rcases List.mem_cons.mp hy with rfl | hy'
        · exact hclt
        · rcases List.mem_cons.mp hy' with rfl | hy''
          · exact lt_of_le_of_lt hxc hclt
          · exact hlt y (List.mem_cons_of_mem _ hy'')

/-- C9: for every non-empty list of stack records, `find_current_stack`
returns the first record whose `CreationTime` is maximal — every record
before it in the list has strictly smaller `CreationTime` and every record
after it has `CreationTime` at most the returned one's (a later record
replaces the current choice only when strictly greater) — and for the empty
list it returns the empty record, modelled as `none`. -/
theorem find_current_stack_first_max :
    find_current_stack [] = none ∧
    ∀ l : List StackRec, l ≠ [] →
      ∃ r l1 l2, find_current_stack l = some r ∧ l = l1 ++ r :: l2 ∧
        (∀ x ∈ l1, x.creationTime < r.creationTime) ∧
        (∀ x ∈ l2, x.creationTime ≤ r.creationTime) := by
  refine ⟨rfl, ?_⟩
  intro l hl
  cases l with
  | nil => exact absurd rfl hl
  | cons x xs => exact foldl_find_current_step_first_max xs x

theorem find_current_stack_first_max_witness :
    find_current_stack [] = none ∧
    ∃ r l1 l2,
      find_current_stack
          [{ creationTime := 1, stackStatus := "A" },
           { creationTime := 3, stackStatus := "B" },
           { creationTime := 3, stackStatus := "C" }] = some r ∧
      [{ creationTime := 1, stackStatus := "A" },
       { creationTime := 3, stackStatus := "B" },
       { creationTime := 3, stackStatus := "C" }] = l1 ++ r :: l2 ∧
      (∀ x ∈ l1, x.creationTime < r.creationTime) ∧
      (∀ x ∈ l2, x.creationTime ≤ r.creationTime) :=
  ⟨find_current_stack_first_max.1,
   find_current_stack_first_max.2 _ (by decide)⟩

/-- C10: when the stack exists (the stack list yields a current record) and
the resource listing succeeds, `get_stack_state` returns the raw stack status
exactly when no resource is in progress; when some resource's status contains
`IN_PROGRESS` case-insensitively, it instead returns the stack status
followed by ` - ` and the comma-separated sorted logical ids — a string
necessarily different from the raw status — where the id list is sorted
ascending and holds exactly the in-progress resources' logical ids. -/
theorem get_stack_state_inprogress (stackname : String)
    (stackList : List StackRec) (stack : StackRec) (resources : List StackResource)
    (hfind : find_current_stack stackList = some stack) :
    (get_inprogress_resources resources = [] →
      get_stack_state stackname (ApiResult.ok stackList) (ApiResult.ok resources) =
        Except.ok stack.stackStatus) ∧
    (∀ r rs, get_inprogress_resources resources = r :: rs →
      get_stack_state stackname (ApiResult.ok stackList) (ApiResult.ok resources) =
        Except.ok (stack.stackStatus ++ " - " ++ String.intercalate ", " (r :: rs)) ∧
      stack.stackStatus ++ " - " ++ String.intercalate ", " (r :: rs) ≠ stack.stackStatus) ∧
    List.Sorted (fun a b => strLe a b = true) (get_inprogress_resources resources) ∧
    (∀ x, x ∈ get_inprogress_resources resources ↔
      ∃ record ∈ resources, record.logicalResourceId = x ∧
        strContains (strLower record.resourceStatus) (strLower "IN_PROGRESS") = true) := by
  refine ⟨?_, ?_, ?_, ?_⟩
  · intro hnil
    simp only [get_stack_state]
    rw [hfind, hnil]
  · intro r rs hcons
    refine ⟨?_, ?_⟩
    · simp only [get_stack_state]
      rw [hfind, hcons]
    · intro heq
      have hlen := congrArg String.length heq
      rw [String.length_append, String.length_append] at hlen
      have h3 : (" - ").length = 3 := rfl
      rw [h3] at hlen
      omega
  · exact sorted_sortStrings _
  · intro x
    unfold get_inprogress_resources
    rw [(perm_sortStrings _).mem_iff, List.mem_filterMap]
    constructor
    · rintro ⟨record, hmem, hif⟩
      by_cases hc : strContains (strLower record.resourceStatus) (strLower "IN_PROGRESS") = true
      · rw [if_pos hc] at hif
        exact ⟨record, hmem, Option.some.inj hif, hc⟩
      · rw [if_neg hc] at hif
        cases hif
    · rintro ⟨record, hmem, hid, hc⟩
      exact ⟨record, hmem, by rw [if_pos hc, hid]⟩

theorem get_stack_state_inprogress_witness :
    get_stack_state "demo"
        (ApiResult.ok [{ creationTime := 0, stackStatus := "CREATE_COMPLETE" }])
        (ApiResult.ok [{ logicalResourceId := "A", resourceStatus := "CREATE_IN_PROGRESS",
                         resourceStatusReason := "" }]) =
      Except.ok ("CREATE_COMPLETE" ++ " - " ++ String.intercalate ", " ["A"]) ∧
    ("CREATE_COMPLETE" ++ " - " ++ String.intercalate ", " ["A"]) ≠ "CREATE_COMPLETE" :=
  (get_stack_state_inprogress "demo"
      [{ creationTime := 0, stackStatus := "CREATE_COMPLETE" }]
      { creationTime := 0, stackStatus := "CREATE_COMPLETE" }
      [{ logicalResourceId := "A", resourceStatus := "CREATE_IN_PROGRESS",
         resourceStatusReason := "" }]
      (by decide)).2.1 "A" [] (by decide)
